import Mathlib

/-!
Verification of the playlist-sorting session core of the spotify-sorted
repository.

The definitions below are a shallow embedding of:
  - the sorting-session client module (sorter play client): the track data
    model, the stable queue sort, queue de-duplication, the membership
    index build effect, the sort / skip / undo handlers, the pending-add
    drain effect;
  - the catalog wrapper module (lib/spotify.ts): the retry logic of
    spotifyFetch and the cached fetchPlaylists path.

JavaScript semantics used by the embedding:
  - Array.prototype.sort with a comparator is a stable sort (ECMAScript
    2019); it is modelled here by a stable insertion sort driven by the
    same comparator.
  - Number(null) is 0 (a missing retry-after header reads as delay 0),
    while Number of a non-numeric string is NaN; this is captured by the
    RetryHeader type below.
  - a JS Set preserves insertion order; it is modelled as a duplicate-free
    list, add appends, delete filters.
-/

/-- Sort keys of the play client (the SortKey union type). -/
inductive SortKey
  | song
  | artist
  | genres
  | savedAt
  | playlistCount
  | popularity
deriving DecidableEq

/-- Sort directions (the SortDir union type). -/
inductive SortDir
  | asc
  | desc
deriving DecidableEq

/-- The Track record of the play client.  Optional numeric fields mirror the
optional TS fields; savedAt holds the epoch value that new Date(savedAt)
getTime would produce, none when the field is absent or empty. -/
structure Track where
  id : String
  name : String
  artists : String
  image : Option String := none
  uri : String := ""
  popularity : Option Int := none
  savedAt : Option Int := none
  genres : Option String := none
  playlistCount : Option Int := none
deriving DecidableEq

/-- A playlist as seen by the play client. -/
structure Playlist where
  id : String
  name : String
  image : Option String := none
deriving DecidableEq

/-- Direction multiplier: the code computes dir === "asc" ? 1 : -1. -/
def dirSign : SortDir → Int
  | .asc => 1
  | .desc => -1

/-- Model of String.prototype.localeCompare: a three-way comparison on
strings, zero exactly on equal strings. -/
def strCmp (a b : String) : Int :=
  if a < b then -1 else if b < a then 1 else 0

/-- The comparator body of sortTracks: per-key three-way comparison times
the direction sign, matching each branch of the source comparator
(text keys compare display strings, numeric keys subtract with default 0,
the savedAt fallback parses the date with default epoch 0). -/
def trackCompare (key : SortKey) (dir : SortDir) (a b : Track) : Int :=
  match key with
  | .song => strCmp a.name b.name * dirSign dir
  | .artist => strCmp a.artists b.artists * dirSign dir
  | .genres => strCmp (a.genres.getD "") (b.genres.getD "") * dirSign dir
  | .playlistCount =>
      (a.playlistCount.getD 0 - b.playlistCount.getD 0) * dirSign dir
  | .popularity => (a.popularity.getD 0 - b.popularity.getD 0) * dirSign dir
  | .savedAt => (a.savedAt.getD 0 - b.savedAt.getD 0) * dirSign dir

/-- Stable insertion of x into a list: x goes in front of the first element
it does not compare strictly greater than.  Equal elements already in the
list therefore stay in front of later-inserted equals, which is exactly the
stability guarantee of Array.prototype.sort. -/
def insertByCmp (cmp : Track → Track → Int) (x : Track) : List Track → List Track
  | [] => [x]
  | y :: ys => if cmp x y ≤ 0 then x :: y :: ys else y :: insertByCmp cmp x ys

/-- Stable sort by a comparator (model of Array.prototype.sort). -/
def sortByCmp (cmp : Track → Track → Int) : List Track → List Track
  | [] => []
  | x :: xs => insertByCmp cmp x (sortByCmp cmp xs)

/-- sortTracks from the play client: copy the list and sort it with the
key/direction comparator. -/
def sortTracks (items : List Track) (key : SortKey) (dir : SortDir) : List Track :=
  sortByCmp (trackCompare key dir) items

/-- Helper of dedupeTracks: keep the first occurrence of every id. -/
def dedupeTracksAux (seen : List String) : List Track → List Track
  | [] => []
  | t :: rest =>
    if t.id ∈ seen then dedupeTracksAux seen rest
    else t :: dedupeTracksAux (t.id :: seen) rest

/-- dedupeTracks from the play client: filter keeping the first track with
each id. -/
def dedupeTracks (tracks : List Track) : List Track :=
  dedupeTracksAux [] tracks

theorem strCmp_eq_zero_iff (a b : String) : strCmp a b = 0 ↔ a = b := by
  unfold strCmp
  split
  · constructor
    · intro h; cases h
    · intro h; subst h; simp_all
  · split
    · constructor
      · intro h; cases h
      · intro h; subst h; simp_all
    · constructor
      · intro _
        exact le_antisymm (le_of_not_lt (by assumption)) (le_of_not_lt (by assumption))
      · intro _; rfl

theorem dirSign_ne_zero (dir : SortDir) : dirSign dir ≠ 0 := by
  cases dir <;> simp [dirSign]

theorem trackCompare_self (key : SortKey) (dir : SortDir) (a : Track) :
    trackCompare key dir a a = 0 := by
  cases key <;> simp [trackCompare, strCmp]

/-- Two tracks that both compare equal to a third compare equal to each
other: the comparator is a direction-signed three-way comparison of a
single key projection. -/
theorem trackCompare_zero_trans (key : SortKey) (dir : SortDir) (a x y : Track)
    (hx : trackCompare key dir a x = 0) (hy : trackCompare key dir a y = 0) :
    trackCompare key dir x y = 0 := by
  have hd := dirSign_ne_zero dir
  cases key <;>
    simp only [trackCompare, mul_eq_zero, or_iff_left hd] at hx hy ⊢ <;>
    first
      | (rw [strCmp_eq_zero_iff] at hx hy ⊢; rw [← hx, ← hy])
      | omega

theorem filter_insertByCmp_neg (cmp : Track → Track → Int) (p : Track → Bool)
    (x : Track) (hx : p x = false) (m : List Track) :
    (insertByCmp cmp x m).filter p = m.filter p := by
  induction m with
  | nil => simp [insertByCmp, hx]
  | cons y ys ih =>
      by_cases h : cmp x y ≤ 0
      · simp [insertByCmp, h, hx]
      · simp only [insertByCmp, if_neg h]
        by_cases hy : p y
        · simp [List.filter_cons, hy, ih]
        · simp [List.filter_cons, hy, ih]

theorem filter_insertByCmp_pos (cmp : Track → Track → Int) (p : Track → Bool)
    (x : Track) (hx : p x = true)
    (hcoh : ∀ y, p y = true → cmp x y = 0) (m : List Track) :
    (insertByCmp cmp x m).filter p = x :: m.filter p := by
  induction m with
  | nil => simp [insertByCmp, hx]
  | cons y ys ih =>
      by_cases h : cmp x y ≤ 0
      · simp [insertByCmp, h, hx]
      · simp only [insertByCmp, if_neg h]
        have hy : p y = false := by
          by_contra hc
          exact h (le_of_eq (hcoh y (by simpa using hc)))
        simp [List.filter_cons, hy, ih]

theorem filter_sortByCmp (cmp : Track → Track → Int) (p : Track → Bool)
    (hcoh : ∀ x y, p x = true → p y = true → cmp x y = 0) (l : List Track) :
    (sortByCmp cmp l).filter p = l.filter p := by
  induction l with
  | nil => rfl
  | cons x xs ih =>
      by_cases hx : p x
      · rw [sortByCmp, filter_insertByCmp_pos cmp p x hx (fun y hy => hcoh x y hx hy),
          ih, List.filter_cons_of_pos hx]
      · rw [sortByCmp,
          filter_insertByCmp_neg cmp p x (by simpa using hx), ih,
          List.filter_cons_of_neg (by simpa using hx)]

/-- C9: the queue sort is stable: for every input list and every sort key
and direction, the sorted list agrees with the input list on the sublist of
tracks comparing equal to any fixed track (the standard stability
statement), and in particular any two tracks that compare equal under the
chosen key — such as tracks with identical savedAt under savedAt
descending — preserve their relative order from the input list. -/
theorem C9_sortTracks_stable (l : List Track) (key : SortKey) (dir : SortDir)
    (a b : Track) :
    (sortTracks l key dir).filter (fun t => trackCompare key dir a t == 0)
      = l.filter (fun t => trackCompare key dir a t == 0)
    ∧ (trackCompare key dir a b = 0 → [a, b].Sublist l →
        [a, b].Sublist (sortTracks l key dir)) := by
  have hcoh : ∀ x y, (trackCompare key dir a x == 0) = true →
      (trackCompare key dir a y == 0) = true → trackCompare key dir x y = 0 := by
    intro x y hx hy
    exact trackCompare_zero_trans key dir a x y (by simpa using hx)
      (by simpa using hy)
  have hfilter := filter_sortByCmp (trackCompare key dir)
    (fun t => trackCompare key dir a t == 0) hcoh l
  refine ⟨hfilter, ?_⟩
  intro hab hsub
  have hpa : (trackCompare key dir a a == 0) = true := by
    simp [trackCompare_self]
  have hpb : (trackCompare key dir a b == 0) = true := by simp [hab]
  have h1 : [a, b].filter (fun t => trackCompare key dir a t == 0) = [a, b] := by
    simp [List.filter_cons, hpa, hpb]
  have h2 := hsub.filter (fun t => trackCompare key dir a t == 0)
  rw [h1, ← hfilter] at h2
  exact h2.trans (List.filter_sublist _)

/-- First track of the stability witness: savedAt 5. -/
def w9a : Track := { id := "a", name := "A", artists := "X", savedAt := some 5 }

/-- Second track of the stability witness: same savedAt 5. -/
def w9b : Track := { id := "b", name := "B", artists := "Y", savedAt := some 5 }

/-- Third track of the stability witness: savedAt 3. -/
def w9c : Track := { id := "c", name := "C", artists := "Z", savedAt := some 3 }

theorem C9_sortTracks_stable_witness :
    trackCompare .savedAt .desc w9a w9b = 0 ∧
    [w9a, w9b].Sublist [w9a, w9b, w9c] ∧
    [w9a, w9b].Sublist (sortTracks [w9a, w9b, w9c] .savedAt .desc) := by
  have hsub : [w9a, w9b].Sublist [w9a, w9b, w9c] := by decide
  exact ⟨by decide, hsub,
    (C9_sortTracks_stable [w9a, w9b, w9c] .savedAt .desc w9a w9b).2
      (by decide) hsub⟩

/-- The membership index playlistTrackIdsRef: a Map from playlist id to a
Set of member track ids.  Modelled as an association list whose values are
insertion-ordered duplicate-free lists. -/
abbrev MembershipMap := List (String × List String)

/-- Map.prototype.get: first matching key. -/
def lookupM (m : MembershipMap) (pid : String) : Option (List String) :=
  match m with
  | [] => none
  | (k, v) :: rest => if k = pid then some v else lookupM rest pid

/-- Map.prototype.set: replace the entry when present, append otherwise. -/
def setM (m : MembershipMap) (pid : String) (v : List String) : MembershipMap :=
  match m with
  | [] => [(pid, v)]
  | (k, w) :: rest =>
      if k = pid then (pid, v) :: rest else (k, w) :: setM rest pid v

/-- Set.prototype.add: append if absent (JS Sets keep insertion order). -/
def setAdd (s : List String) (x : String) : List String :=
  if x ∈ s then s else s ++ [x]

/-- Set.prototype.delete: drop the element. -/
def setDelete (s : List String) (x : String) : List String :=
  s.filter (fun y => y ≠ x)

/-- A SortedItem of the play client: one history entry per confirmed add. -/
structure SortedItem where
  track : Track
  playlistId : String
  playlistName : String
deriving DecidableEq

/-- A PendingAdd of the play client: a queued (track, playlist) mutation. -/
structure PendingAdd where
  track : Track
  playlistId : String
deriving DecidableEq

/-- The sorting-session state of the play client.  Each field mirrors one
piece of component state or one ref: queue, allTracks, processedIdsRef,
playlistTrackIdsRef, sortedHistory, pendingAdds, status, error,
preventDuplicates, duplicateReady, the selected playlists.  uiBusy stands
for the keyAnim / drag.active / dragStarted guards of the key handlers.
addCalls and removalCalls log the outgoing POST requests of
submitTrackToPlaylist and performUndo as (playlistId, trackUri) pairs. -/
structure SessState where
  queue : List Track
  allTracks : List Track
  processedIds : List String
  membership : MembershipMap
  history : List SortedItem
  pendingAdds : List PendingAdd
  status : Option String := none
  error : Option String := none
  preventDuplicates : Bool
  duplicateReady : Bool := false
  playlists : List Playlist
  uiBusy : Bool := false
  addCalls : List (String × String) := []
  removalCalls : List (String × String) := []
deriving DecidableEq

/-- The optimistic playlistCount bump of handleDropPlaylist and
startKeyAnimation: map over allTracks incrementing the count of the track
with the given id. -/
def incCount (tid : String) (ts : List Track) : List Track :=
  ts.map fun t =>
    if t.id = tid then { t with playlistCount := some (t.playlistCount.getD 0 + 1) }
    else t

/-- The playlistCount reversal of performUndo: decrement, clamped at 0. -/
def decCount (tid : String) (ts : List Track) : List Track :=
  ts.map fun t =>
    if t.id = tid then { t with playlistCount := some (max 0 (t.playlistCount.getD 0 - 1)) }
    else t

/-- topTrack of the play client: the head of the de-duplicated queue. -/
def topTrack (st : SessState) : Option Track :=
  (dedupeTracks st.queue).head?

/-- handleDropPlaylist from the play client: with duplicate prevention on,
reject with a loading message when the index has no entry for the playlist
and with a duplicate message when the entry already holds the track id;
otherwise add the id to the entry, bump the playlistCount, mark the track
processed, pop the queue and enqueue the pending add.  flashStatus is
modelled as setting the status message (its auto-clear timer is
presentational). -/
def handleDropPlaylist (st : SessState) (playlistId : String) : SessState :=
  match topTrack st with
  | none => st
  | some currentTrack =>
    if st.preventDuplicates then
      match lookupM st.membership playlistId with
      | none => { st with status := some "Loading playlist contents..." }
      | some ids =>
        if currentTrack.id ∈ ids then
          { st with status := some "Already in this playlist." }
        else
          { st with
            membership := setM st.membership playlistId (setAdd ids currentTrack.id)
            allTracks := incCount currentTrack.id st.allTracks
            processedIds := setAdd st.processedIds currentTrack.id
            queue := st.queue.drop 1
            pendingAdds := st.pendingAdds ++ [⟨currentTrack, playlistId⟩] }
    else
      { st with
        processedIds := setAdd st.processedIds currentTrack.id
        queue := st.queue.drop 1
        pendingAdds := st.pendingAdds ++ [⟨currentTrack, playlistId⟩] }

/-- startKeyAnimation with a playlist target, committed through
handleKeyAnimationEnd (or finalizeKeyPlaylist when a layout node is
missing): the same checks and state changes as handleDropPlaylist, behind
the keyAnim / busy guard; the pending add is appended when the animation
settles, so the committed end state coincides with the drop path. -/
def startKeyPlaylist (st : SessState) (playlistId : String) : SessState :=
  if st.uiBusy then st
  else
    match topTrack st with
    | none => st
    | some currentTrack =>
      if st.preventDuplicates then
        match lookupM st.membership playlistId with
        | none => { st with status := some "Loading playlist contents..." }
        | some ids =>
          if currentTrack.id ∈ ids then
            { st with status := some "Already in this playlist." }
          else
            { st with
              membership := setM st.membership playlistId (setAdd ids currentTrack.id)
              allTracks := incCount currentTrack.id st.allTracks
              processedIds := setAdd st.processedIds currentTrack.id
              queue := st.queue.drop 1
              pendingAdds := st.pendingAdds ++ [⟨currentTrack, playlistId⟩] }
      else
        { st with
          processedIds := setAdd st.processedIds currentTrack.id
          queue := st.queue.drop 1
          pendingAdds := st.pendingAdds ++ [⟨currentTrack, playlistId⟩] }

/-- handleSkip: mark the top track processed and pop the queue. -/
def handleSkip (st : SessState) : SessState :=
  match topTrack st with
  | none => st
  | some t =>
    { st with
      processedIds := setAdd st.processedIds t.id
      queue := st.queue.drop 1 }

/-- One round of the pendingAdds drain effect together with
submitTrackToPlaylist: take the head pending add, issue the add call
(remoteOk is its outcome), append the history entry when the call succeeds
and the playlist is among the selected ones, surface the error otherwise,
and pop the pending list in the finally block.  On failure the status
message set before the call is never cleared. -/
def drainStep (st : SessState) (remoteOk : Bool) : SessState :=
  match st.pendingAdds with
  | [] => st
  | pa :: rest =>
    let st1 := { st with
      addCalls := st.addCalls ++ [(pa.playlistId, pa.track.uri)]
      status := some "Adding to playlist..." }
    if remoteOk then
      match st1.playlists.find? (fun p => p.id = pa.playlistId) with
      | some pl =>
          { st1 with
            history := st1.history ++ [⟨pa.track, pa.playlistId, pl.name⟩]
            status := none
            pendingAdds := rest }
      | none => { st1 with status := none, pendingAdds := rest }
    else
      { st1 with error := some "Failed to add track", pendingAdds := rest }

/-- performUndo from the play client: the removal call is always issued;
when it succeeds the history entry is filtered out, the membership entry
and the playlistCount are reversed when duplicate prevention is on, and the
processed mark is deleted; when it fails only the error is surfaced. -/
def performUndo (st : SessState) (item : SortedItem) (remoteOk : Bool) : SessState :=
  let st1 := { st with
    removalCalls := st.removalCalls ++ [(item.playlistId, item.track.uri)] }
  if remoteOk then
    let st2 := { st1 with history := st1.history.filter (fun row => row ≠ item) }
    let st3 :=
      if st2.preventDuplicates then
        { st2 with
          membership :=
            match lookupM st2.membership item.playlistId with
            | some ids =>
                setM st2.membership item.playlistId (setDelete ids item.track.id)
            | none => st2.membership
          allTracks := decCount item.track.id st2.allTracks }
      else st2
    { st3 with processedIds := setDelete st3.processedIds item.track.id }
  else
    { st1 with error := some "Failed to remove track" }

/-- handleUndoShortcut: behind the busy guard, take the last history entry,
reinsert its track at the front of the de-duplicated queue (directly when a
layout node is missing, otherwise at the end of the undo animation — in
both code paths the reinsertion does not wait for the removal call), and
run performUndo with the outcome of the removal call. -/
def handleUndoShortcut (st : SessState) (remoteOk : Bool) : SessState :=
  if st.uiBusy then st
  else
    match st.history.getLast? with
    | none => st
    | some item =>
      performUndo { st with queue := dedupeTracks (item.track :: st.queue) }
        item remoteOk

/-- The queue recompute effect keyed on sortedTracks: when the memoized
filtered/sorted list is nonempty, the queue becomes that list minus the
processed ids, de-duplicated; an empty memo leaves the queue untouched. -/
def recomputeQueue (st : SessState) (newSorted : List Track) : SessState :=
  if newSorted.isEmpty then st
  else
    { st with
      queue := dedupeTracks (newSorted.filter fun t => !st.processedIds.contains t.id) }

/-- The state of one membership build effect run: the published index map,
the set of playlists whose fetch has settled successfully during this run,
and the duplicateReady flag. -/
structure MembershipBuild where
  index : MembershipMap
  completedFetches : List String
  duplicateReady : Bool
deriving DecidableEq

/-- The synchronous prefix of the membership build effect: duplicateReady
is cleared and, unless no playlist is selected, a fresh map seeded with an
entry for every selected playlist (a copy of its previous entry, or an
empty set) is published as playlistTrackIdsRef before any per-playlist
fetch settles. -/
def membershipBuildStart (playlists : List Playlist) (b : MembershipBuild) :
    MembershipBuild :=
  if playlists.isEmpty then { b with duplicateReady := false }
  else
    { index := playlists.foldl
        (fun m p => setM m p.id ((lookupM b.index p.id).getD [])) []
      completedFetches := []
      duplicateReady := false }

/-- The continuation of the build effect after Promise.allSettled: each
fulfilled result (some ids) overwrites the seeded entry of its playlist and
records its fetch as completed; a rejected result (none) leaves the seeded
entry; duplicateReady is set exactly when every fetch fulfilled. -/
def membershipBuildSettle (b : MembershipBuild)
    (results : List (String × Option (List String))) : MembershipBuild :=
  { index := results.foldl
      (fun m r => match r.2 with
        | some ids => setM m r.1 ids
        | none => m) b.index
    completedFetches := b.completedFetches ++
      results.filterMap fun r => r.2.map fun _ => r.1
    duplicateReady := results.all fun r => r.2.isSome }

theorem lookupM_setM_self (m : MembershipMap) (pid : String) (v : List String) :
    lookupM (setM m pid v) pid = some v := by
  induction m with
  | nil => simp [setM, lookupM]
  | cons kv rest ih =>
      obtain ⟨k, w⟩ := kv
      by_cases h : k = pid <;> simp [setM, lookupM, h, ih]

theorem lookupM_setM_other (m : MembershipMap) (pid k : String)
    (v : List String) (h : k ≠ pid) :
    lookupM (setM m pid v) k = lookupM m k := by
  have h2 : pid ≠ k := fun hh => h hh.symm
  induction m with
  | nil => simp [setM, lookupM, h2]
  | cons kv rest ih =>
      obtain ⟨k2, w⟩ := kv
      by_cases hk : k2 = pid
      · subst hk; simp [setM, lookupM, h2]
      · simp only [setM, if_neg hk, lookupM]
        by_cases h3 : k2 = k <;> simp [h3, ih]

theorem setAdd_of_not_mem (s : List String) (x : String) (h : x ∉ s) :
    setAdd s x = s ++ [x] := by
  simp [setAdd, h]

theorem setDelete_of_not_mem (s : List String) (x : String) (h : x ∉ s) :
    setDelete s x = s := by
  unfold setDelete
  apply List.filter_eq_self.mpr
  intro a ha
  simpa using ne_of_mem_of_not_mem ha h

theorem setDelete_concat (s : List String) (x : String) (h : x ∉ s) :
    setDelete (s ++ [x]) x = s := by
  unfold setDelete
  rw [List.filter_append]
  have h1 : s.filter (fun y => y ≠ x) = s := setDelete_of_not_mem s x h
  have h2 : [x].filter (fun y => (y ≠ x : Bool)) = [] := by simp
  rw [h1, h2, List.append_nil]

theorem mem_of_mem_dedupeTracksAux {t : Track} {l : List Track} {seen : List String} :
    t ∈ dedupeTracksAux seen l → t ∈ l := by
  induction l generalizing seen with
  | nil => intro h; cases h
  | cons u rest ih =>
      intro h
      rw [dedupeTracksAux] at h
      by_cases hc : u.id ∈ seen
      · rw [if_pos hc] at h
        exact List.mem_cons_of_mem u (ih h)
      · rw [if_neg hc] at h
        rcases List.mem_cons.mp h with h | h
        · exact h ▸ List.mem_cons_self u rest
        · exact List.mem_cons_of_mem u (ih h)

theorem dedupeTracksAux_prop (l : List Track) (seen : List String) :
    ((dedupeTracksAux seen l).map Track.id).Nodup
    ∧ ∀ t ∈ dedupeTracksAux seen l, t.id ∉ seen := by
  induction l generalizing seen with
  | nil => exact ⟨List.nodup_nil, by intro t h; cases h⟩
  | cons u rest ih =>
      rw [dedupeTracksAux]
      by_cases hc : u.id ∈ seen
      · rw [if_pos hc]
        exact ih seen
      · rw [if_neg hc]
        obtain ⟨ihn, ihd⟩ := ih (u.id :: seen)
        refine ⟨?_, ?_⟩
        · rw [List.map_cons, List.nodup_cons]
          refine ⟨?_, ihn⟩
          intro hmem
          obtain ⟨t, ht, hid⟩ := List.mem_map.mp hmem
          exact ihd t ht (hid ▸ List.mem_cons_self _ _)
        · intro t ht hs
          rcases List.mem_cons.mp ht with ht | ht
          · exact hc (ht ▸ hs)
          · exact ihd t ht (List.mem_cons_of_mem _ hs)

theorem dedupeTracks_nodup (l : List Track) :
    ((dedupeTracks l).map Track.id).Nodup :=
  (dedupeTracksAux_prop l []).1

theorem dedupeTracksAux_eq_self (l : List Track) (seen : List String)
    (hdis : ∀ t ∈ l, t.id ∉ seen) (hnodup : (l.map Track.id).Nodup) :
    dedupeTracksAux seen l = l := by
  induction l generalizing seen with
  | nil => rfl
  | cons t rest ih =>
      have ht : t.id ∉ seen := hdis t (List.mem_cons_self t rest)
      rw [dedupeTracksAux, if_neg ht]
      rw [List.map_cons, List.nodup_cons] at hnodup
      congr 1
      apply ih (t.id :: seen) ?_ hnodup.2
      intro u hu hmem
      rcases List.mem_cons.mp hmem with h | h
      · exact hnodup.1 (h ▸ List.mem_map_of_mem Track.id hu)
      · exact hdis u (List.mem_cons_of_mem t hu) h

theorem dedupeTracks_eq_self (l : List Track) (h : (l.map Track.id).Nodup) :
    dedupeTracks l = l :=
  dedupeTracksAux_eq_self l [] (by intro t _ hs; cases hs) h

/-- C1: with duplicate prevention enabled and the membership index entry
for playlist P containing the id of the pending head track T, sorting T
into P — by drop or by key action — returns the state unchanged except for
the status message "Already in this playlist.": in particular the queue
(T still at its head), the processed set and the pending mutations are
untouched. -/
theorem C1_duplicate_block (st : SessState) (P : String) (T : Track)
    (ids : List String)
    (hdup : st.preventDuplicates = true)
    (hl : lookupM st.membership P = some ids)
    (hmem : T.id ∈ ids)
    (htop : topTrack st = some T)
    (hbusy : st.uiBusy = false) :
    handleDropPlaylist st P = { st with status := some "Already in this playlist." }
    ∧ startKeyPlaylist st P = { st with status := some "Already in this playlist." } := by
  unfold handleDropPlaylist startKeyPlaylist
  rw [htop, hbusy, hdup, hl]
  simp [hmem]

/-- The selected playlist of the concrete witness states. -/
def plChill : Playlist := { id := "P", name := "Chill" }

/-- First witness track. -/
def trackA : Track :=
  { id := "t1", name := "Alpha", artists := "Ann", uri := "spotify:track:t1" }

/-- Second witness track. -/
def trackB : Track :=
  { id := "t2", name := "Beta", artists := "Bob", uri := "spotify:track:t2" }

/-- Witness session state for C1: trackA is at the head of the queue and
already a member of playlist P. -/
def c1st : SessState :=
  { queue := [trackA, trackB]
    allTracks := [trackA, trackB]
    processedIds := []
    membership := [("P", ["t1"])]
    history := []
    pendingAdds := []
    preventDuplicates := true
    duplicateReady := true
    playlists := [plChill] }

theorem C1_duplicate_block_witness :
    (c1st.preventDuplicates = true ∧ lookupM c1st.membership "P" = some ["t1"]
      ∧ trackA.id ∈ ["t1"] ∧ topTrack c1st = some trackA ∧ c1st.uiBusy = false)
    ∧ handleDropPlaylist c1st "P"
        = { c1st with status := some "Already in this playlist." } := by
  refine ⟨⟨by decide, by decide, by decide, by decide, by decide⟩, ?_⟩
  exact (C1_duplicate_block c1st "P" trackA ["t1"] (by decide) (by decide)
    (by decide) (by decide) (by decide)).1

theorem lookupM_seed (b : MembershipMap) (ps : List Playlist)
    (m0 : MembershipMap) (pid : String) :
    lookupM (ps.foldl (fun m p => setM m p.id ((lookupM b p.id).getD [])) m0) pid
      = if pid ∈ ps.map Playlist.id then some ((lookupM b pid).getD [])
        else lookupM m0 pid := by
  induction ps generalizing m0 with
  | nil => simp
  | cons p rest ih =>
      rw [List.foldl_cons, ih]
      by_cases h : pid ∈ rest.map Playlist.id
      · simp [h]
      · by_cases h2 : pid = p.id
        · subst h2
          simp [h, lookupM_setM_self]
        · simp [h, h2, lookupM_setM_other _ _ _ _ h2]

/-- C2 as stated is false on the code: the membership build effect
publishes, synchronously and before any per-playlist fetch settles, a map
seeded with an entry (the previous contents, or an empty set) for every
selected playlist.  Concretely, starting a build for playlist P from an
empty previous index yields an index whose entry for P is the empty set
while the set of completed fetches of the build is empty — an entry exists
although the membership fetch of P has not completed. -/
theorem C2_counterexample :
    lookupM (membershipBuildStart [plChill] ⟨[], [], false⟩).index "P" = some []
    ∧ (membershipBuildStart [plChill] ⟨[], [], false⟩).completedFetches = [] := by
  constructor <;> decide

/-- C2 amended: index entries can exist before the fetch completes — at
build start every selected playlist is seeded with a copy of its previous
entry or an empty set, while no fetch of the run has completed.  The
rejection behaviour holds exactly when the playlist has no entry at all:
sort(T, P) with no index entry for P — by drop or by key action — only
sets the status message "Loading playlist contents...", leaving the queue
(T still pending at its head), the processed set and the pending mutations
untouched. -/
theorem C2_membership_unknown (st : SessState) (P : String) (T : Track)
    (hdup : st.preventDuplicates = true)
    (hnone : lookupM st.membership P = none)
    (htop : topTrack st = some T)
    (hbusy : st.uiBusy = false) :
    (handleDropPlaylist st P
        = { st with status := some "Loading playlist contents..." }
      ∧ startKeyPlaylist st P
        = { st with status := some "Loading playlist contents..." })
    ∧ ∀ (ps : List Playlist) (b : MembershipBuild) (p : Playlist), p ∈ ps →
        lookupM (membershipBuildStart ps b).index p.id
            = some ((lookupM b.index p.id).getD [])
        ∧ (membershipBuildStart ps b).completedFetches = [] := by
  constructor
  · constructor
    · unfold handleDropPlaylist
      rw [htop, hdup, hnone]
      simp
    · unfold startKeyPlaylist
      rw [hbusy, htop, hdup, hnone]
      simp
  · intro ps b p hp
    have hne : ps.isEmpty = false := by
      cases ps with
      | nil => cases hp
      | cons q qs => rfl
    unfold membershipBuildStart
    rw [hne]
    simp only [Bool.false_eq_true, if_false]
    refine ⟨?_, by trivial⟩
    rw [lookupM_seed]
    rw [if_pos (List.mem_map_of_mem Playlist.id hp)]

/-- Witness session state for C2: the membership index has no entry at
all, as before the first build effect run. -/
def c2st : SessState := { c1st with membership := [] }

theorem C2_membership_unknown_witness :
    (c2st.preventDuplicates = true ∧ lookupM c2st.membership "P" = none
      ∧ topTrack c2st = some trackA ∧ c2st.uiBusy = false ∧ plChill ∈ [plChill])
    ∧ handleDropPlaylist c2st "P"
        = { c2st with status := some "Loading playlist contents..." }
    ∧ lookupM (membershipBuildStart [plChill] ⟨[], [], false⟩).index "P"
        = some [] := by
  have h := C2_membership_unknown c2st "P" trackA (by decide) (by decide)
    (by decide) (by decide)
  refine ⟨⟨by decide, by decide, by decide, by decide, by decide⟩, h.1.1, ?_⟩
  have h2 := (h.2 [plChill] ⟨[], [], false⟩ plChill (by decide)).1
  simpa using h2

theorem mem_setAdd (s : List String) (x y : String) :
    x ∈ setAdd s y ↔ x ∈ s ∨ x = y := by
  unfold setAdd
  split
  · constructor
    · exact Or.inl
    · intro h
      rcases h with h | h
      · exact h
      · exact h ▸ (by assumption)
  · simp [List.mem_append]

/-- The queue-driving actions of a session: sort by drop, sort by key,
skip, and a recomputation of the queue from a new memoized filtered/sorted
track list (covering any change of filters, sort key or direction, or of
the underlying track set). -/
inductive QueueAction
  | sortTo (playlistId : String)
  | keySortTo (playlistId : String)
  | skip
  | recompute (newSorted : List Track)

/-- Dispatch one queue action to its handler. -/
def applyQueueAction (st : SessState) : QueueAction → SessState
  | .sortTo pid => handleDropPlaylist st pid
  | .keySortTo pid => startKeyPlaylist st pid
  | .skip => handleSkip st
  | .recompute ns => recomputeQueue st ns

/-- Run a sequence of queue actions. -/
def runQueueActions (st : SessState) : List QueueAction → SessState
  | [] => st
  | a :: rest => runQueueActions (applyQueueAction st a) rest

/-- The queue invariant of a session: queue ids are duplicate-free and no
queued track is marked processed. -/
def QInv (st : SessState) : Prop :=
  ((st.queue.map Track.id).Nodup) ∧ ∀ t ∈ st.queue, t.id ∉ st.processedIds

instance (st : SessState) : Decidable (QInv st) := by
  unfold QInv
  infer_instance

theorem QInv_process_head (st st2 : SessState) (hinv : QInv st) (T : Track)
    (htop : topTrack st = some T)
    (hq : st2.queue = st.queue.drop 1)
    (hp : st2.processedIds = setAdd st.processedIds T.id) : QInv st2 := by
  obtain ⟨hn, hd⟩ := hinv
  have hded : dedupeTracks st.queue = st.queue := dedupeTracks_eq_self _ hn
  rw [topTrack, hded] at htop
  cases hqq : st.queue with
  | nil => rw [hqq] at htop; cases htop
  | cons u tail =>
      rw [hqq] at htop
      simp only [List.head?_cons, Option.some.injEq] at htop
      subst htop
      rw [hqq, List.map_cons, List.nodup_cons] at hn
      constructor
      · rw [hq, hqq, List.drop_one, List.tail_cons]
        exact hn.2
      · intro t ht hmem
        rw [hq, hqq, List.drop_one, List.tail_cons] at ht
        rcases (mem_setAdd _ _ _).mp (hp ▸ hmem) with h | h
        · exact hd t (hqq ▸ List.mem_cons_of_mem u ht) h
        · exact hn.1 (h ▸ List.mem_map_of_mem Track.id ht)

theorem handleDropPlaylist_cases (st : SessState) (pid : String) :
    ((handleDropPlaylist st pid).queue = st.queue
      ∧ (handleDropPlaylist st pid).processedIds = st.processedIds)
    ∨ ∃ T, topTrack st = some T
        ∧ (handleDropPlaylist st pid).queue = st.queue.drop 1
        ∧ (handleDropPlaylist st pid).processedIds = setAdd st.processedIds T.id := by
  unfold handleDropPlaylist
  cases htop : topTrack st with
  | none => exact Or.inl ⟨by trivial, by trivial⟩
  | some T =>
      cases hdup : st.preventDuplicates with
      | false =>
          simp only [Bool.false_eq_true, if_false]
          exact Or.inr ⟨T, rfl, by trivial, by trivial⟩
      | true =>
          simp only [if_true]
          cases hl : lookupM st.membership pid with
          | none => exact Or.inl ⟨by trivial, by trivial⟩
          | some ids =>
              by_cases hmem : T.id ∈ ids
              · simp only [if_pos hmem]
                exact Or.inl ⟨by trivial, by trivial⟩
              · simp only [if_neg hmem]
                exact Or.inr ⟨T, rfl, by trivial, by trivial⟩

theorem startKeyPlaylist_cases (st : SessState) (pid : String) :
    ((startKeyPlaylist st pid).queue = st.queue
      ∧ (startKeyPlaylist st pid).processedIds = st.processedIds)
    ∨ ∃ T, topTrack st = some T
        ∧ (startKeyPlaylist st pid).queue = st.queue.drop 1
        ∧ (startKeyPlaylist st pid).processedIds = setAdd st.processedIds T.id := by
  unfold startKeyPlaylist
  cases hbusy : st.uiBusy with
  | true => simp only [if_true]; exact Or.inl ⟨by trivial, by trivial⟩
  | false =>
      simp only [Bool.false_eq_true, if_false]
      cases htop : topTrack st with
      | none => exact Or.inl ⟨by trivial, by trivial⟩
      | some T =>
          cases hdup : st.preventDuplicates with
          | false =>
              simp only [Bool.false_eq_true, if_false]
              exact Or.inr ⟨T, rfl, by trivial, by trivial⟩
          | true =>
              simp only [if_true]
              cases hl : lookupM st.membership pid with
              | none => exact Or.inl ⟨by trivial, by trivial⟩
              | some ids =>
                  by_cases hmem : T.id ∈ ids
                  · simp only [if_pos hmem]
                    exact Or.inl ⟨by trivial, by trivial⟩
                  · simp only [if_neg hmem]
                    exact Or.inr ⟨T, rfl, by trivial, by trivial⟩

theorem handleSkip_cases (st : SessState) :
    ((handleSkip st).queue = st.queue
      ∧ (handleSkip st).processedIds = st.processedIds)
    ∨ ∃ T, topTrack st = some T
        ∧ (handleSkip st).queue = st.queue.drop 1
        ∧ (handleSkip st).processedIds = setAdd st.processedIds T.id := by
  unfold handleSkip
  cases htop : topTrack st with
  | none => exact Or.inl ⟨by trivial, by trivial⟩
  | some T => exact Or.inr ⟨T, rfl, by trivial, by trivial⟩

theorem recomputeQueue_cases (st : SessState) (ns : List Track) :
    (recomputeQueue st ns).processedIds = st.processedIds
    ∧ ((recomputeQueue st ns).queue = st.queue
      ∨ (recomputeQueue st ns).queue
          = dedupeTracks (ns.filter fun t => !st.processedIds.contains t.id)) := by
  unfold recomputeQueue
  split
  · exact ⟨rfl, Or.inl rfl⟩
  · exact ⟨rfl, Or.inr rfl⟩

theorem QInv_apply (st : SessState) (a : QueueAction) (h : QInv st) :
    QInv (applyQueueAction st a) := by
  have hshape :
      ((applyQueueAction st a).queue = st.queue
        ∧ (applyQueueAction st a).processedIds = st.processedIds)
      ∨ (∃ T, topTrack st = some T
          ∧ (applyQueueAction st a).queue = st.queue.drop 1
          ∧ (applyQueueAction st a).processedIds = setAdd st.processedIds T.id)
      ∨ ((applyQueueAction st a).processedIds = st.processedIds
          ∧ ∃ ns : List Track, (applyQueueAction st a).queue
            = dedupeTracks (ns.filter fun t => !st.processedIds.contains t.id)) := by
    cases a with
    | sortTo pid =>
        exact (handleDropPlaylist_cases st pid).imp id Or.inl
    | keySortTo pid =>
        exact (startKeyPlaylist_cases st pid).imp id Or.inl
    | skip =>
        exact (handleSkip_cases st).imp id Or.inl
    | recompute ns =>
        rcases recomputeQueue_cases st ns with ⟨hp, hq | hq⟩
        · exact Or.inl ⟨hq, hp⟩
        · exact Or.inr (Or.inr ⟨hp, ns, hq⟩)
  rcases hshape with ⟨hq, hp⟩ | ⟨T, htop, hq, hp⟩ | ⟨hp, ns, hq⟩
  · refine ⟨?_, ?_⟩
    · rw [hq]
      exact h.1
    · intro t ht
      rw [hq] at ht
      rw [hp]
      exact h.2 t ht
  · exact QInv_process_head st _ h T htop hq hp
  · constructor
    · rw [hq]
      exact dedupeTracks_nodup _
    · intro t ht hmem
      have ht2 : t ∈ ns.filter (fun t => !st.processedIds.contains t.id) :=
        mem_of_mem_dedupeTracksAux (hq ▸ ht)
      have hpred := (List.mem_filter.mp ht2).2
      rw [hp] at hmem
      rw [show st.processedIds.contains t.id = true from
        List.elem_eq_true_of_mem hmem] at hpred
      simp at hpred

theorem processed_mono_apply (st : SessState) (a : QueueAction) (x : String)
    (hx : x ∈ st.processedIds) : x ∈ (applyQueueAction st a).processedIds := by
  cases a with
  | sortTo pid =>
      show x ∈ (handleDropPlaylist st pid).processedIds
      rcases handleDropPlaylist_cases st pid with ⟨_, hp⟩ | ⟨T, _, _, hp⟩
      · rw [hp]; exact hx
      · rw [hp]; exact (mem_setAdd _ _ _).mpr (Or.inl hx)
  | keySortTo pid =>
      show x ∈ (startKeyPlaylist st pid).processedIds
      rcases startKeyPlaylist_cases st pid with ⟨_, hp⟩ | ⟨T, _, _, hp⟩
      · rw [hp]; exact hx
      · rw [hp]; exact (mem_setAdd _ _ _).mpr (Or.inl hx)
  | skip =>
      show x ∈ (handleSkip st).processedIds
      rcases handleSkip_cases st with ⟨_, hp⟩ | ⟨T, _, _, hp⟩
      · rw [hp]; exact hx
      · rw [hp]; exact (mem_setAdd _ _ _).mpr (Or.inl hx)
  | recompute ns =>
      show x ∈ (recomputeQueue st ns).processedIds
      rw [(recomputeQueue_cases st ns).1]
      exact hx

/-- C5: for every sequence of sort, skip and queue-recompute actions (the
latter covering every change of filters, sort key/direction or underlying
track set), a track whose identifier is in the processed set of a session
satisfying the queue invariant never appears in the queue produced by the
run: processed ids are never dropped by these actions, and every
recomputation re-excludes them. -/
theorem C5_queue_exclusivity (st : SessState) (acts : List QueueAction)
    (t : Track) (hinv : QInv st) (hproc : t.id ∈ st.processedIds) :
    t ∉ (runQueueActions st acts).queue := by
  induction acts generalizing st with
  | nil =>
      intro hmem
      exact hinv.2 t hmem hproc
  | cons a rest ih =>
      show t ∉ (runQueueActions (applyQueueAction st a) rest).queue
      exact ih _ (QInv_apply st a hinv) (processed_mono_apply st a t.id hproc)

/-- Witness session state for C5: trackA has already been processed. -/
def c5st : SessState :=
  { queue := [trackB]
    allTracks := [trackA, trackB]
    processedIds := ["t1"]
    membership := [("P", [])]
    history := []
    pendingAdds := []
    preventDuplicates := true
    duplicateReady := true
    playlists := [plChill] }

theorem C5_queue_exclusivity_witness :
    (QInv c5st ∧ trackA.id ∈ c5st.processedIds)
    ∧ trackA ∉ (runQueueActions c5st
        [QueueAction.skip, QueueAction.recompute [trackA, trackB]]).queue := by
  refine ⟨⟨by decide, by decide⟩, ?_⟩
  exact C5_queue_exclusivity c5st
    [QueueAction.skip, QueueAction.recompute [trackA, trackB]] trackA
    (by decide) (by decide)

theorem filter_ne_concat {α : Type} [DecidableEq α] (l : List α) (x : α)
    (h : x ∉ l) : (l ++ [x]).filter (fun y => y ≠ x) = l := by
  rw [List.filter_append]
  have h1 : l.filter (fun y => y ≠ x) = l :=
    List.filter_eq_self.mpr fun a ha => by
      simpa using ne_of_mem_of_not_mem ha h
  rw [h1]
  simp

/-- C3: a successful sort(T, P) — drop, drain with a confirmed remote add —
followed by undo on the resulting history entry with a confirmed remote
removal restores T to the front of the queue, restores the membership entry
of P to one without the id of T, removes the history entry, issues exactly
one remote removal call, and restores the processed set. -/
theorem C3_undo_round_trip
    (T : Track) (rest allT : List Track) (P : String) (pl : Playlist)
    (ids procd : List String) (hist : List SortedItem)
    (mem : MembershipMap) (pls : List Playlist)
    (hids : lookupM mem P = some ids)
    (hnotmem : T.id ∉ ids)
    (hnodupq : T.id ∉ rest.map Track.id)
    (hnodupr : (rest.map Track.id).Nodup)
    (hfind : pls.find? (fun p => p.id = P) = some pl)
    (hproc : T.id ∉ procd)
    (hhist : (⟨T, P, pl.name⟩ : SortedItem) ∉ hist) :
    (fun final : SessState =>
      final.queue = T :: rest
      ∧ lookupM final.membership P = some ids
      ∧ final.history = hist
      ∧ final.removalCalls = [(P, T.uri)]
      ∧ final.addCalls = [(P, T.uri)]
      ∧ final.processedIds = procd)
    (handleUndoShortcut
      (drainStep
        (handleDropPlaylist
          { queue := T :: rest, allTracks := allT, processedIds := procd,
            membership := mem, history := hist, pendingAdds := [],
            preventDuplicates := true, duplicateReady := true,
            playlists := pls } P)
        true)
      true) := by
  have hnodup : ((T :: rest).map Track.id).Nodup := by
    rw [List.map_cons, List.nodup_cons]
    exact ⟨hnodupq, hnodupr⟩
  have hded : dedupeTracks (T :: rest) = T :: rest :=
    dedupeTracks_eq_self _ hnodup
  have h1 : handleDropPlaylist
      { queue := T :: rest, allTracks := allT, processedIds := procd,
        membership := mem, history := hist, pendingAdds := [],
        preventDuplicates := true, duplicateReady := true,
        playlists := pls } P
      = { queue := rest, allTracks := incCount T.id allT,
          processedIds := procd ++ [T.id],
          membership := setM mem P (ids ++ [T.id]), history := hist,
          pendingAdds := [⟨T, P⟩], preventDuplicates := true,
          duplicateReady := true, playlists := pls } := by
    unfold handleDropPlaylist topTrack
    simp only [hded]
    simp [hids, hnotmem, setAdd, hproc]
  rw [h1]
  have h2 : drainStep
      { queue := rest, allTracks := incCount T.id allT,
        processedIds := procd ++ [T.id],
        membership := setM mem P (ids ++ [T.id]), history := hist,
        pendingAdds := [⟨T, P⟩], preventDuplicates := true,
        duplicateReady := true, playlists := pls } true
      = { queue := rest, allTracks := incCount T.id allT,
          processedIds := procd ++ [T.id],
          membership := setM mem P (ids ++ [T.id]),
          history := hist ++ [⟨T, P, pl.name⟩],
          pendingAdds := [], preventDuplicates := true,
          duplicateReady := true, playlists := pls,
          addCalls := [(P, T.uri)] } := by
    unfold drainStep
    simp [hfind]
  rw [h2]
  have hfil : (hist ++ [(⟨T, P, pl.name⟩ : SortedItem)]).filter
      (fun row => row ≠ ⟨T, P, pl.name⟩) = hist :=
    filter_ne_concat hist _ hhist
  unfold handleUndoShortcut performUndo
  simp only [List.getLast?_concat]
  refine ⟨?_, ?_, ?_, ?_, ?_, ?_⟩ <;>
    simp [hded, lookupM_setM_self, setDelete_concat ids T.id hnotmem,
      setDelete_concat procd T.id hproc, hfil]
  exact fun a ha => ne_of_mem_of_not_mem ha hhist

theorem C3_undo_round_trip_witness :
    (lookupM [("P", [])] "P" = some [] ∧ trackA.id ∉ ([] : List String)
      ∧ trackA.id ∉ [trackB].map Track.id ∧ ([trackB].map Track.id).Nodup
      ∧ [plChill].find? (fun p => p.id = "P") = some plChill
      ∧ (⟨trackA, "P", plChill.name⟩ : SortedItem) ∉ ([] : List SortedItem))
    ∧ (fun final : SessState =>
        final.queue = trackA :: [trackB]
        ∧ lookupM final.membership "P" = some []
        ∧ final.history = []
        ∧ final.removalCalls = [("P", trackA.uri)]
        ∧ final.addCalls = [("P", trackA.uri)]
        ∧ final.processedIds = [])
      (handleUndoShortcut
        (drainStep
          (handleDropPlaylist
            { queue := trackA :: [trackB], allTracks := [trackA, trackB],
              processedIds := [], membership := [("P", [])], history := [],
              pendingAdds := [], preventDuplicates := true,
              duplicateReady := true, playlists := [plChill] } "P")
          true)
        true) := by
  refine ⟨⟨by decide, by decide, by decide, by decide, by decide, by decide⟩, ?_⟩
  exact C3_undo_round_trip trackA [trackB] [trackA, trackB] "P" plChill
    [] [] [] [("P", [])] [plChill] (by decide) (by decide) (by decide)
    (by decide) (by decide) (by decide) (by decide)

/-- The history entry of the C4 counterexample state. -/
def c4item : SortedItem :=
  { track := trackA, playlistId := "P", playlistName := "Chill" }

/-- C4 counterexample state: trackA has been sorted into playlist P (it is
processed, a member of the entry, and the history records it). -/
def c4st : SessState :=
  { queue := [trackB]
    allTracks := [trackA, trackB]
    processedIds := ["t1"]
    membership := [("P", ["t1"])]
    history := [c4item]
    pendingAdds := []
    preventDuplicates := true
    duplicateReady := true
    playlists := [plChill] }

/-- C4 as stated is false on the code: when the remote removal call of an
undo fails, the session state does not equal the pre-undo state — the undo
shortcut reinserts the track at the front of the visible queue before the
removal call resolves, and a failure does not take it back out.  At the
concrete state c4st the failed undo leaves the history, membership and
processed set unchanged, but the queue now starts with the undone track. -/
theorem C4_counterexample :
    handleUndoShortcut c4st false ≠ c4st
    ∧ (handleUndoShortcut c4st false).queue = [trackA, trackB]
    ∧ c4st.queue = [trackB]
    ∧ trackA.id ∈ (handleUndoShortcut c4st false).processedIds
    ∧ (handleUndoShortcut c4st false).history = c4st.history := by
  refine ⟨by decide, by decide, by decide, by decide, by decide⟩

/-- C4 amended: when the remote removal call of an undo fails, the history
entry is retained, the membership index, the processed set, the status and
all other fields are unchanged, exactly one removal call was issued and the
error is surfaced — but the undone track has been reinserted at the front
of the visible queue (it is still processed, so the next queue
recomputation excludes it again). -/
theorem C4_undo_failure (st : SessState) (item : SortedItem)
    (hbusy : st.uiBusy = false) (hlast : st.history.getLast? = some item) :
    handleUndoShortcut st false
      = { st with
          queue := dedupeTracks (item.track :: st.queue)
          removalCalls := st.removalCalls ++ [(item.playlistId, item.track.uri)]
          error := some "Failed to remove track" } := by
  unfold handleUndoShortcut
  rw [hbusy, hlast]
  unfold performUndo
  simp

theorem C4_undo_failure_witness :
    (c4st.uiBusy = false ∧ c4st.history.getLast? = some c4item)
    ∧ handleUndoShortcut c4st false
        = { c4st with
            queue := dedupeTracks (c4item.track :: c4st.queue)
            removalCalls := [("P", c4item.track.uri)]
            error := some "Failed to remove track" } := by
  refine ⟨⟨by decide, by decide⟩, ?_⟩
  have h := C4_undo_failure c4st c4item (by decide) (by decide)
  rw [h]
  decide

/-- An observable remote event of the mutation pipeline: the start of the
add call for a pending add, and its settlement (success or failure). -/
inductive PipeEvent
  | callStart (p : PendingAdd)
  | callEnd (p : PendingAdd)
deriving DecidableEq

/-- The state of the pendingAdds drain machinery: the pendingAdds list,
the processingRef flag, the pending add whose call is in flight, the log
of remote events, and two ghost histories (settled items, and every
enqueued item in submission order). -/
structure PipeState where
  pending : List PendingAdd
  processing : Bool
  inFlight : Option PendingAdd
  log : List PipeEvent
  done : List PendingAdd
  enqueued : List PendingAdd
deriving DecidableEq

/-- The interleaved steps of the drain machinery: enq appends a pending
add (a sort action committing); begin is the effect run that, when
processingRef is clear and the list nonempty, sets processingRef and
issues the add call for the head; settle is the resolution of the
in-flight call, popping the head in the finally block and clearing
processingRef.  A step whose guard fails leaves the state unchanged, as
the effect returns early. -/
inductive PipeStep
  | enq (p : PendingAdd)
  | begin
  | settle

/-- One pipeline step. -/
def applyPipeStep (s : PipeState) : PipeStep → PipeState
  | .enq p =>
      { s with
        pending := s.pending ++ [p]
        enqueued := s.enqueued ++ [p] }
  | .begin =>
      if s.processing then s
      else
        match s.pending with
        | [] => s
        | p :: _ =>
            { s with
              processing := true
              inFlight := some p
              log := s.log ++ [.callStart p] }
  | .settle =>
      match s.inFlight with
      | none => s
      | some p =>
          { s with
            pending := s.pending.drop 1
            processing := false
            inFlight := none
            log := s.log ++ [.callEnd p]
            done := s.done ++ [p] }

/-- Run a sequence of pipeline steps. -/
def runPipe (s : PipeState) : List PipeStep → PipeState
  | [] => s
  | a :: rest => runPipe (applyPipeStep s a) rest

/-- The initial pipeline state: nothing pending, nothing in flight. -/
def pipeInit : PipeState :=
  { pending := [], processing := false, inFlight := none, log := [],
    done := [], enqueued := [] }

/-- The serialized shape of a remote-event log: a start/end pair for every
settled item in order, followed by a lone start when a call is in
flight. -/
def serializedLog (done : List PendingAdd) (o : Option PendingAdd) :
    List PipeEvent :=
  (done.flatMap fun p => [.callStart p, .callEnd p])
    ++ (match o with
        | some p => [PipeEvent.callStart p]
        | none => [])

/-- The pipeline invariant: the log is serialized, the settled items
followed by the still-pending ones reproduce the submission order, the
processingRef flag tracks the in-flight call, and an in-flight call is
always for the head of the pending list. -/
def PipeInv (s : PipeState) : Prop :=
  s.log = serializedLog s.done s.inFlight
  ∧ s.enqueued = s.done ++ s.pending
  ∧ s.processing = s.inFlight.isSome
  ∧ ∀ p, s.inFlight = some p → s.pending.head? = some p

theorem PipeInv_step (s : PipeState) (a : PipeStep) (h : PipeInv s) :
    PipeInv (applyPipeStep s a) := by
  obtain ⟨hlog, henq, hproc, hif⟩ := h
  cases a with
  | enq p =>
      refine ⟨hlog, ?_, hproc, ?_⟩
      · show s.enqueued ++ [p] = s.done ++ (s.pending ++ [p])
        rw [henq, List.append_assoc]
      · intro q hq
        have h1 := hif q hq
        show (s.pending ++ [p]).head? = some q
        cases hpend : s.pending with
        | nil => rw [hpend] at h1; cases h1
        | cons x xs =>
            rw [hpend] at h1
            simpa using h1
  | begin =>
      show PipeInv (if s.processing then s else _)
      by_cases hp : s.processing
      · rw [if_pos hp]
        exact ⟨hlog, henq, hproc, hif⟩
      · rw [if_neg hp]
        cases hpend : s.pending with
        | nil => exact ⟨hlog, henq, hproc, hif⟩
        | cons p tail =>
            have hnone : s.inFlight = none := by
              cases hfl : s.inFlight with
              | none => rfl
              | some q =>
                  rw [hfl] at hproc
                  simp only [Option.isSome_some] at hproc
                  exact absurd hproc hp
            refine ⟨?_, ?_, rfl, ?_⟩
            · show s.log ++ [PipeEvent.callStart p]
                = serializedLog s.done (some p)
              rw [hlog, hnone]
              unfold serializedLog
              simp
            · show s.enqueued = s.done ++ (p :: tail)
              rw [henq, hpend]
            · intro q hq
              simp only [Option.some.injEq] at hq
              show (p :: tail).head? = some q
              rw [← hq]
              rfl
  | settle =>
      show PipeInv (match s.inFlight with | none => s | some p => _)
      cases hfl : s.inFlight with
      | none => exact ⟨hlog, henq, hproc, hif⟩
      | some p =>
          have hhead := hif p hfl
          obtain ⟨tail, hpend⟩ : ∃ tail, s.pending = p :: tail := by
            cases hpend : s.pending with
            | nil => rw [hpend] at hhead; cases hhead
            | cons x xs =>
                rw [hpend] at hhead
                simp only [List.head?_cons, Option.some.injEq] at hhead
                exact ⟨xs, by rw [hhead]⟩
          refine ⟨?_, ?_, rfl, ?_⟩
          · show s.log ++ [PipeEvent.callEnd p]
              = serializedLog (s.done ++ [p]) none
            rw [hlog, hfl]
            unfold serializedLog
            simp
          · show s.enqueued = (s.done ++ [p]) ++ s.pending.drop 1
            rw [henq, hpend]
            simp
          · intro q hq
            cases hq

theorem PipeInv_runPipe (s : PipeState) (steps : List PipeStep)
    (h : PipeInv s) : PipeInv (runPipe s steps) := by
  induction steps generalizing s with
  | nil => exact h
  | cons a rest ih => exact ih _ (PipeInv_step s a h)

/-- C6: in every interleaving of enqueues, drain-effect runs and call
settlements starting from the idle pipeline, the remote add calls are
serialized in FIFO submission order: the event log consists of a
start/settle pair for each settled item, in exactly the order the items
were enqueued (the settled items followed by the still-pending ones
reproduce the submission order), followed by at most one unmatched call
start (at most one call in flight, witnessed by the processingRef flag).
In particular, if A then B were submitted, any log in which something has
settled begins with the call for A starting and settling before anything
else — the call for B is issued only after the call for A completes or
fails. -/
theorem C6_mutation_fifo (steps : List PipeStep) :
    (fun final : PipeState =>
      final.log = serializedLog final.done final.inFlight
      ∧ final.enqueued = final.done ++ final.pending
      ∧ final.processing = final.inFlight.isSome
      ∧ (∀ A B rest2, final.enqueued = A :: B :: rest2 →
          final.done ≠ [] →
          ∃ tail, final.log
            = PipeEvent.callStart A :: PipeEvent.callEnd A :: tail))
    (runPipe pipeInit steps) := by
  have h0 : PipeInv pipeInit := ⟨rfl, rfl, rfl, fun p hp => by cases hp⟩
  have h := PipeInv_runPipe pipeInit steps h0
  obtain ⟨hlog, henq, hproc, hif⟩ := h
  refine ⟨hlog, henq, hproc, ?_⟩
  intro A B rest2 hAB hdone
  cases hd : (runPipe pipeInit steps).done with
  | nil => exact absurd hd hdone
  | cons d ds =>
      rw [hd] at henq
      rw [henq] at hAB
      simp only [List.cons_append, List.cons.injEq] at hAB
      refine ⟨serializedLog ds (runPipe pipeInit steps).inFlight, ?_⟩
      rw [hlog, hd, hAB.1]
      unfold serializedLog
      simp

/-- First pending add of the C6 witness run. -/
def paA : PendingAdd := ⟨trackA, "P"⟩

/-- Second pending add of the C6 witness run. -/
def paB : PendingAdd := ⟨trackB, "Q"⟩

/-- The C6 witness interleaving: two sorts commit in rapid succession,
then the drain effect runs, the first call settles and the effect runs
again. -/
def c6steps : List PipeStep :=
  [.enq paA, .enq paB, .begin, .settle, .begin]

theorem C6_mutation_fifo_witness :
    ((runPipe pipeInit c6steps).enqueued = paA :: paB :: []
      ∧ (runPipe pipeInit c6steps).done ≠ [])
    ∧ ∃ tail, (runPipe pipeInit c6steps).log
        = PipeEvent.callStart paA :: PipeEvent.callEnd paA :: tail := by
  refine ⟨⟨by decide, by decide⟩, ?_⟩
  exact (C6_mutation_fifo c6steps).2.2.2 paA paB [] (by decide) (by decide)

/-- A retry-after header value as read by Number(...) in JS: absent
(headers.get returns null and Number(null) is 0), present but non-numeric
(Number gives NaN), or a numeric value in seconds. -/
inductive RetryHeader
  | missing
  | nonNumeric
  | seconds (n : Nat)
deriving DecidableEq

/-- An HTTP response as observed by spotifyFetch: its status and its
retry-after header. -/
structure HttpResp where
  status : Nat
  retryAfter : RetryHeader := .missing
deriving DecidableEq

/-- res.ok: status in the 2xx range. -/
def respOk (r : HttpResp) : Bool := 200 ≤ r.status && r.status ≤ 299

/-- The retryDelay computation of spotifyFetch: Number(header) times 1000
when the number is finite — including 0 for a missing header, since
Number(null) is 0 — and the 800 ms default when the header is NaN. -/
def retryDelay : RetryHeader → Nat
  | .missing => 0
  | .nonNumeric => 800
  | .seconds n => n * 1000

/-- The observable outcome of one spotifyFetch call: the result (ok, or an
error carrying the HTTP status of the failing response), the number of
fetch attempts made, and the waits performed between attempts in ms. -/
structure FetchOutcome where
  result : Except Nat Unit
  attempts : Nat
  waits : List Nat

/-- spotifyFetch from lib/spotify.ts, over the responses the two possible
fetch attempts would yield: a 2xx first response returns at once; on a 429
whose retry delay is at most 1500 ms it waits that long and refetches
exactly once, returning the second response or an error carrying the
second status; any other failure — non-2xx non-429, or a 429 whose delay
exceeds the threshold — raises an error carrying the first status after a
single attempt. -/
def spotifyFetch (r1 r2 : HttpResp) : FetchOutcome :=
  if respOk r1 then ⟨.ok (), 1, []⟩
  else if r1.status = 429 ∧ retryDelay r1.retryAfter ≤ 1500 then
    if respOk r2 then ⟨.ok (), 2, [retryDelay r1.retryAfter]⟩
    else ⟨.error r2.status, 2, [retryDelay r1.retryAfter]⟩
  else ⟨.error r1.status, 1, []⟩

/-- C7: the catalog client makes a single attempt unless the response
status is 429; on a 429 with a numeric retry-after hint of n seconds it
waits n times 1000 ms and retries exactly once when that delay is at most
1500 ms, and otherwise propagates a rate-limited error carrying status 429
without retrying; a 2xx first response succeeds in one attempt, and every
non-2xx response that is not a retried 429 raises an error carrying its
HTTP status. -/
theorem C7_spotifyFetch_retry (r1 r2 : HttpResp) (n : Nat) :
    (respOk r1 = true → spotifyFetch r1 r2 = ⟨.ok (), 1, []⟩)
    ∧ (respOk r1 = false → r1.status ≠ 429 →
        spotifyFetch r1 r2 = ⟨.error r1.status, 1, []⟩)
    ∧ (r1.status = 429 → r1.retryAfter = .seconds n → n * 1000 ≤ 1500 →
        (spotifyFetch r1 r2).attempts = 2
        ∧ (spotifyFetch r1 r2).waits = [n * 1000]
        ∧ (respOk r2 = true → (spotifyFetch r1 r2).result = .ok ())
        ∧ (respOk r2 = false →
            (spotifyFetch r1 r2).result = .error r2.status))
    ∧ (r1.status = 429 → r1.retryAfter = .seconds n → n * 1000 > 1500 →
        spotifyFetch r1 r2 = ⟨.error 429, 1, []⟩) := by
  refine ⟨?_, ?_, ?_, ?_⟩
  · intro hok
    simp [spotifyFetch, hok]
  · intro hok h429
    simp [spotifyFetch, hok, h429]
  · intro h429 hhd hle
    have hok : respOk r1 = false := by
      simp [respOk, h429]
    have hcond : r1.status = 429 ∧ retryDelay r1.retryAfter ≤ 1500 := by
      rw [hhd]
      exact ⟨h429, by simpa [retryDelay] using hle⟩
    cases hok2 : respOk r2 with
    | true =>
        refine ⟨?_, ?_, ?_, ?_⟩ <;>
          simp [spotifyFetch, hok, hcond, hok2, hhd, retryDelay, hle]
    | false =>
        refine ⟨?_, ?_, ?_, ?_⟩ <;>
          simp [spotifyFetch, hok, hcond, hok2, hhd, retryDelay, hle]
  · intro h429 hhd hgt
    have hok : respOk r1 = false := by
      simp [respOk, h429]
    have hcond : ¬(r1.status = 429 ∧ retryDelay r1.retryAfter ≤ 1500) := by
      rw [hhd]
      intro hc
      simp only [retryDelay] at hc
      omega
    simp [spotifyFetch, hok, hcond, h429]
    intro hc
    rw [hhd] at hc
    simp only [retryDelay] at hc
    omega

/-- C7 witness response: a 429 with a 1-second retry-after hint. -/
def c7resp : HttpResp := { status := 429, retryAfter := .seconds 1 }

/-- C7 witness second response: a plain 200. -/
def c7ok : HttpResp := { status := 200 }

theorem C7_spotifyFetch_retry_witness :
    (c7resp.status = 429 ∧ c7resp.retryAfter = .seconds 1 ∧ 1 * 1000 ≤ 1500)
    ∧ (spotifyFetch c7resp c7ok).attempts = 2
    ∧ (spotifyFetch c7resp c7ok).waits = [1 * 1000]
    ∧ (respOk c7ok = true ∧ (spotifyFetch c7resp c7ok).result = .ok ()) := by
  have h := (C7_spotifyFetch_retry c7resp c7ok 1).2.2.1 (by decide) (by decide)
    (by decide)
  exact ⟨⟨by decide, by decide, by decide⟩, h.1, h.2.1,
    ⟨by decide, h.2.2.1 (by decide)⟩⟩

/-- C10 counterexample response: a 429 with no retry-after header. -/
def c10resp : HttpResp := { status := 429, retryAfter := .missing }

/-- C10 as stated is false on the code for the missing-header case: the
client does retry, but it waits 0 ms, not the 800 ms default —
headers.get returns null, Number(null) is 0, a finite number, so the
NaN-default of 800 ms is not taken.  Concretely, a 429 with no header
followed by a 200 yields two attempts with waits [0], not [800]. -/
theorem C10_counterexample :
    (spotifyFetch c10resp c7ok).attempts = 2
    ∧ (spotifyFetch c10resp c7ok).waits = [0]
    ∧ (spotifyFetch c10resp c7ok).waits ≠ [800] := by
  refine ⟨by decide, by decide, by decide⟩

/-- C10 amended: on a 429 with a non-numeric retry-after header the client
waits the 800 ms default and retries exactly once; with no header at all
it also retries exactly once but waits 0 ms, because Number(null)
evaluates to 0; in both cases the delay is below the 1500 ms threshold, so
a single retry happens rather than a rate-limited error propagating. -/
theorem C10_retry_defaults (r1 r2 : HttpResp) (h429 : r1.status = 429) :
    (r1.retryAfter = .nonNumeric →
      (spotifyFetch r1 r2).attempts = 2
      ∧ (spotifyFetch r1 r2).waits = [800])
    ∧ (r1.retryAfter = .missing →
      (spotifyFetch r1 r2).attempts = 2
      ∧ (spotifyFetch r1 r2).waits = [0]) := by
  have hok : respOk r1 = false := by
    simp [respOk, h429]
  constructor
  · intro hhd
    have hcond : r1.status = 429 ∧ retryDelay r1.retryAfter ≤ 1500 := by
      rw [hhd]
      exact ⟨h429, by simp [retryDelay]⟩
    cases hok2 : respOk r2 with
    | true => exact ⟨by simp [spotifyFetch, hok, hcond, hok2],
        by simp [spotifyFetch, hok, hcond, hok2, hhd, retryDelay]⟩
    | false => exact ⟨by simp [spotifyFetch, hok, hcond, hok2],
        by simp [spotifyFetch, hok, hcond, hok2, hhd, retryDelay]⟩
  · intro hhd
    have hcond : r1.status = 429 ∧ retryDelay r1.retryAfter ≤ 1500 := by
      rw [hhd]
      exact ⟨h429, by simp [retryDelay]⟩
    cases hok2 : respOk r2 with
    | true => exact ⟨by simp [spotifyFetch, hok, hcond, hok2],
        by simp [spotifyFetch, hok, hcond, hok2, hhd, retryDelay]⟩
    | false => exact ⟨by simp [spotifyFetch, hok, hcond, hok2],
        by simp [spotifyFetch, hok, hcond, hok2, hhd, retryDelay]⟩

/-- C10 witness response: a 429 with a non-numeric retry-after header. -/
def c10nn : HttpResp := { status := 429, retryAfter := .nonNumeric }

theorem C10_retry_defaults_witness :
    (c10nn.status = 429 ∧ c10nn.retryAfter = .nonNumeric
      ∧ c10resp.retryAfter = .missing)
    ∧ ((spotifyFetch c10nn c7ok).attempts = 2
        ∧ (spotifyFetch c10nn c7ok).waits = [800])
    ∧ ((spotifyFetch c10resp c7ok).attempts = 2
        ∧ (spotifyFetch c10resp c7ok).waits = [0]) := by
  refine ⟨⟨by decide, by decide, by decide⟩, ?_, ?_⟩
  · exact (C10_retry_defaults c10nn c7ok (by decide)).1 (by decide)
  · exact (C10_retry_defaults c10resp c7ok (by decide)).2 (by decide)

/-- A normalized playlist of lib/spotify.ts. -/
structure NormalizedPlaylist where
  id : String
  name : String
  owner : String := "Unknown"
  total : Nat := 0
  image : Option String := none
deriving DecidableEq

/-- A server playlist-cache entry: data and its expiry instant in ms. -/
structure CacheEntry where
  data : List NormalizedPlaylist
  expiresAt : Nat
deriving DecidableEq

/-- An error from the underlying paged fetch, as inspected by the catch
block of fetchPlaylists: apiError carries the HTTP status that the message
of spotifyFetch embeds — for messages of that generated shape
message.includes("429") holds exactly when the status is 429 — and
rateLimited is the fresh rate-limited error fetchPlaylists itself
throws. -/
inductive SpError
  | apiError (status : Nat)
  | rateLimited
deriving DecidableEq

/-- The outcome of fetchPlaylists: the result, whether the upstream paged
request ran, and the cache entry afterwards. -/
structure PlaylistsOutcome where
  result : Except SpError (List NormalizedPlaylist)
  calledUpstream : Bool
  cacheAfter : Option CacheEntry

/-- PLAYLIST_CACHE_TTL_MS of lib/spotify.ts. -/
def PLAYLIST_CACHE_TTL_MS : Nat := 30000

/-- fetchPlaylists from lib/spotify.ts for one access-token key, with the
clock and the outcome of the upstream paged fetch as parameters: a cached
entry that has not expired is returned with no upstream call; otherwise
the paged request runs — on success the data is cached for 30 s and
returned; on an error whose message includes "429" the cache entry looked
up at entry, even if expired, is returned as a degraded success, and only
when there is none does a fresh rate-limited error propagate; any other
error propagates unchanged.  (The single-flight in-flight map only
de-duplicates concurrent callers and has no effect in this sequential
model.) -/
def fetchPlaylists (cache : Option CacheEntry) (now : Nat)
    (upstream : Except SpError (List NormalizedPlaylist)) :
    PlaylistsOutcome :=
  match cache with
  | some c =>
      if now < c.expiresAt then
        ⟨.ok c.data, false, some c⟩
      else
        match upstream with
        | .ok d => ⟨.ok d, true, some ⟨d, now + PLAYLIST_CACHE_TTL_MS⟩⟩
        | .error e =>
            if e = .apiError 429 then ⟨.ok c.data, true, some c⟩
            else ⟨.error e, true, some c⟩
  | none =>
      match upstream with
      | .ok d => ⟨.ok d, true, some ⟨d, now + PLAYLIST_CACHE_TTL_MS⟩⟩
      | .error e =>
          if e = .apiError 429 then ⟨.error .rateLimited, true, none⟩
          else ⟨.error e, true, none⟩

/-- C8: an unexpired cache entry is returned without any upstream call;
when the upstream fetch fails with a 429 and a cache entry exists — even
an expired one — its data is returned as a degraded success; when no
cache entry exists, a 429 from the upstream fetch propagates as a
rate-limited error. -/
theorem C8_rate_limit_cache_fallback (cache : Option CacheEntry) (now : Nat)
    (upstream : Except SpError (List NormalizedPlaylist)) (c : CacheEntry) :
    (cache = some c → now < c.expiresAt →
      fetchPlaylists cache now upstream
        = ⟨.ok c.data, false, some c⟩)
    ∧ (cache = some c → ¬ now < c.expiresAt →
        upstream = .error (.apiError 429) →
      fetchPlaylists cache now upstream
        = ⟨.ok c.data, true, some c⟩)
    ∧ (cache = none → upstream = .error (.apiError 429) →
      fetchPlaylists cache now upstream
        = ⟨.error .rateLimited, true, none⟩) := by
  refine ⟨?_, ?_, ?_⟩
  · intro hc hfresh
    subst hc
    simp [fetchPlaylists, hfresh]
  · intro hc hstale hup
    subst hc
    subst hup
    simp [fetchPlaylists, hstale]
  · intro hc hup
    subst hc
    subst hup
    simp [fetchPlaylists]

/-- C8 witness cache entry, already expired at the witness clock. -/
def c8entry : CacheEntry :=
  { data := [{ id := "pl1", name := "Chill" }], expiresAt := 10 }

theorem C8_rate_limit_cache_fallback_witness :
    ((some c8entry = some c8entry) ∧ ¬ (50 : Nat) < c8entry.expiresAt
      ∧ ((Except.error (.apiError 429) :
          Except SpError (List NormalizedPlaylist))
        = .error (.apiError 429)))
    ∧ (fetchPlaylists (some c8entry) 50 (.error (.apiError 429))).result
        = .ok c8entry.data
    ∧ (fetchPlaylists none 50 (.error (.apiError 429))).result
        = .error .rateLimited := by
  refine ⟨⟨rfl, by decide, rfl⟩, ?_, ?_⟩
  · rw [((C8_rate_limit_cache_fallback (some c8entry) 50
      (.error (.apiError 429)) c8entry).2.1 rfl (by decide) rfl)]
  · rw [((C8_rate_limit_cache_fallback none 50
      (.error (.apiError 429)) c8entry).2.2 rfl rfl)]
